import Mathlib

/-!
Verification of the race-ai repository's physics / collision / track-progress
core and of its DQN agent's replay-buffer and epsilon bookkeeping.

JavaScript numbers are modelled as exact reals (for the geometric code, which
uses sqrt/cos/sin) and exact rationals (for the agent's arithmetic, which is
pure field arithmetic); machine floating point is not modelled.
-/

set_option maxHeartbeats 1000000

namespace RaceAI

/- Constants from src/unnamed/part_006: PHYSICS_CONSTANTS, CANVAS_CONSTANTS
and CELL_TYPES. -/

def MAX_SPEED : ℝ := 4
def ACCELERATION : ℝ := 0.25
def DECELERATION : ℝ := 0.15
def FRICTION : ℝ := 0.08
def TURN_SPEED : ℝ := 0.10
def CAR_SIZE : ℝ := 16
def COLLISION_BUFFER : ℝ := 2
def CANVAS_WIDTH : ℝ := 800
def CANVAS_HEIGHT : ℝ := 600
def CELL_SIZE : ℝ := 20

def WALL : ℕ := 0
def ROAD : ℕ := 1
def START : ℕ := 2
def FINISH : ℕ := 3

/-- Velocity vector of a car (the velocity field of the Car interface). -/
structure Vec2 where
  x : ℝ
  y : ℝ

/-- The Car record of src/types/racing (fields as constructed in
MultiCarGame.tsx lines 74 to 94 and consumed by the physics module). -/
structure Car where
  id : String
  name : String
  x : ℝ
  y : ℝ
  angle : ℝ
  speed : ℝ
  velocity : Vec2
  acceleration : ℝ
  width : ℝ
  height : ℝ
  color : String
  isAI : Bool
  isPlayer : Bool
  lapTimes : List ℝ
  currentLapStartTime : ℝ
  position : ℕ
  checkpoints : List ℕ
  finished : Bool
  crashed : Bool

/-- A grid cell coordinate (the start / finish fields of MapData). -/
structure GridPos where
  x : ℤ
  y : ℤ

/-- MapData from src/src/components/Editor.tsx: a grid of cell kinds plus
optional start and finish cells. -/
structure MapData where
  grid : List (List ℕ)
  start : Option GridPos
  finish : Option GridPos
  checkpoints : List (ℤ × ℤ × ℕ)
  lapsRequired : ℕ

/-- CarInput from src/unnamed/part_006. -/
structure CarInput where
  up : Bool
  down : Bool
  left : Bool
  right : Bool

/-- updateCarPhysics from src/unnamed/part_006 lines 34 to 82.  The source
mutates a copy of the car field by field; the sequential lets below replicate
that data flow (each later field reads the already-updated earlier ones). -/
noncomputable def updateCarPhysics (car : Car) (input : CarInput) : Car :=
  let acc : ℝ := if input.up then ACCELERATION else if input.down then -ACCELERATION else 0
  let speed1 := car.speed + acc
  let speed2 :=
    if 0 < speed1 then max 0 (speed1 - FRICTION)
    else if speed1 < 0 then min 0 (speed1 + FRICTION)
    else speed1
  let speed3 := max (-(MAX_SPEED * 0.5)) (min MAX_SPEED speed2)
  let angle1 :=
    if 0.1 < |speed3| ∧ input.left then
      car.angle - TURN_SPEED * |speed3| / MAX_SPEED
    else car.angle
  let angle2 :=
    if 0.1 < |speed3| ∧ input.right then
      angle1 + TURN_SPEED * |speed3| / MAX_SPEED
    else angle1
  let vx := Real.cos angle2 * speed3
  let vy := Real.sin angle2 * speed3
  { car with
      acceleration := acc
      speed := speed3
      angle := angle2
      velocity := ⟨vx, vy⟩
      x := car.x + vx
      y := car.y + vy }

/-- C9: updateCarPhysics changes only the kinematic fields; id, name, width,
height, color, isAI, isPlayer, lapTimes, currentLapStartTime, position,
checkpoints, crashed and finished are returned unchanged, so the physics step
never sets or clears the crashed or finished flag. -/
theorem updateCarPhysics_frame (car : Car) (input : CarInput) :
    (updateCarPhysics car input).id = car.id ∧
    (updateCarPhysics car input).name = car.name ∧
    (updateCarPhysics car input).width = car.width ∧
    (updateCarPhysics car input).height = car.height ∧
    (updateCarPhysics car input).color = car.color ∧
    (updateCarPhysics car input).isAI = car.isAI ∧
    (updateCarPhysics car input).isPlayer = car.isPlayer ∧
    (updateCarPhysics car input).lapTimes = car.lapTimes ∧
    (updateCarPhysics car input).currentLapStartTime = car.currentLapStartTime ∧
    (updateCarPhysics car input).position = car.position ∧
    (updateCarPhysics car input).checkpoints = car.checkpoints ∧
    (updateCarPhysics car input).crashed = car.crashed ∧
    (updateCarPhysics car input).finished = car.finished :=
  ⟨rfl, rfl, rfl, rfl, rfl, rfl, rfl, rfl, rfl, rfl, rfl, rfl, rfl⟩

/-- A concrete car for witnesses and counterexamples: position (x, y), heading
angle and scalar speed as given, every other field as built at race start. -/
def mkCar (x y angle speed : ℝ) : Car :=
  ⟨"car-0", "Speedster", x, y, angle, speed, ⟨0, 0⟩, 0, CAR_SIZE, CAR_SIZE,
   "#ef4444", true, false, [], 0, 1, [], false, false⟩

/-- The speed component of one coasting physics step (no accelerate, no
brake): friction toward zero, then the clamp to [-MAX_SPEED * 0.5, MAX_SPEED],
exactly as updateCarPhysics computes it. -/
noncomputable def frictionStep (s : ℝ) : ℝ :=
  max (-(MAX_SPEED * 0.5)) (min MAX_SPEED
    (if 0 < s then max 0 (s - FRICTION)
     else if s < 0 then min 0 (s + FRICTION)
     else s))

theorem updateCarPhysics_coast_speed_eq (car : Car) (inp : CarInput)
    (hu : inp.up = false) (hd : inp.down = false) :
    (updateCarPhysics car inp).speed = frictionStep car.speed := by
  simp [updateCarPhysics, frictionStep, hu, hd]

theorem frictionStep_pos (s : ℝ) (h1 : 0 < s) (h2 : s ≤ MAX_SPEED + FRICTION) :
    frictionStep s = max (s - FRICTION) 0 := by
  unfold frictionStep MAX_SPEED FRICTION at *
  rw [if_pos h1]
  simp only [max_def, min_def]
  split_ifs <;> linarith

theorem frictionStep_neg (s : ℝ) (h1 : s < 0) (h2 : -(MAX_SPEED * 0.5) - FRICTION ≤ s) :
    frictionStep s = min (s + FRICTION) 0 := by
  unfold frictionStep MAX_SPEED FRICTION at *
  rw [if_neg (by linarith), if_pos h1]
  simp only [max_def, min_def]
  split_ifs <;> linarith

theorem frictionStep_decay_pos (s : ℝ) (h1 : 0 < s) :
    0 ≤ frictionStep s ∧ frictionStep s < s := by
  unfold frictionStep MAX_SPEED FRICTION
  rw [if_pos h1]
  constructor <;> · simp only [max_def, min_def]; split_ifs <;> linarith

theorem frictionStep_decay_neg (s : ℝ) (h1 : s < 0) :
    frictionStep s ≤ 0 ∧ s < frictionStep s := by
  unfold frictionStep MAX_SPEED FRICTION
  rw [if_neg (by linarith), if_pos h1]
  constructor <;> · simp only [max_def, min_def]; split_ifs <;> linarith

theorem frictionStep_zero : frictionStep 0 = 0 := by
  unfold frictionStep MAX_SPEED FRICTION
  norm_num

/-- C5 counterexample: the claimed formula speed goes to max(s - d, 0) fails as
a universal statement, because updateCarPhysics clamps the speed to
[-MAX_SPEED * 0.5, MAX_SPEED] after applying friction.  A coasting car with
speed 5 ends the step at speed 4 (the clamp), not at max(5 - 0.08, 0) = 4.92. -/
theorem updateCarPhysics_coast_formula_fails :
    (updateCarPhysics (mkCar 0 0 0 5) ⟨false, false, false, false⟩).speed = 4 ∧
    max ((mkCar 0 0 0 5).speed - FRICTION) 0 ≠ 4 := by
  constructor
  · rw [updateCarPhysics_coast_speed_eq _ _ rfl rfl]
    show frictionStep 5 = 4
    unfold frictionStep MAX_SPEED FRICTION
    norm_num
  · show max ((5:ℝ) - FRICTION) 0 ≠ 4
    unfold FRICTION
    norm_num

/-- C5 (amended): for every car and every control input with neither
accelerate nor brake held, one physics step takes speed s to exactly
max(s - d, 0) when 0 < s and to min(s + d, 0) when s < 0 (d = FRICTION = 0.08),
provided the decayed speed stays inside the clamp range
[-MAX_SPEED * 0.5, MAX_SPEED]; for every starting speed, |speed| strictly
decreases toward 0 and the speed never crosses zero into the opposite sign in
one step. -/
theorem updateCarPhysics_coast_speed (car : Car) (inp : CarInput)
    (hu : inp.up = false) (hd : inp.down = false) :
    (0 < car.speed → car.speed ≤ MAX_SPEED + FRICTION →
      (updateCarPhysics car inp).speed = max (car.speed - FRICTION) 0) ∧
    (car.speed < 0 → -(MAX_SPEED * 0.5) - FRICTION ≤ car.speed →
      (updateCarPhysics car inp).speed = min (car.speed + FRICTION) 0) ∧
    (0 < car.speed →
      0 ≤ (updateCarPhysics car inp).speed ∧ (updateCarPhysics car inp).speed < car.speed) ∧
    (car.speed < 0 →
      (updateCarPhysics car inp).speed ≤ 0 ∧ car.speed < (updateCarPhysics car inp).speed) ∧
    (car.speed = 0 → (updateCarPhysics car inp).speed = 0) := by
  rw [updateCarPhysics_coast_speed_eq car inp hu hd]
  refine ⟨frictionStep_pos car.speed, frictionStep_neg car.speed,
    frictionStep_decay_pos car.speed, frictionStep_decay_neg car.speed, ?_⟩
  intro h
  rw [h]
  exact frictionStep_zero

/-- C5 witness: a car coasting at speed 1 decays exactly to max(1 - 0.08, 0). -/
theorem updateCarPhysics_coast_speed_witness :
    (updateCarPhysics (mkCar 0 0 0 1) ⟨false, false, false, false⟩).speed =
      max ((mkCar 0 0 0 1).speed - FRICTION) 0 :=
  (updateCarPhysics_coast_speed (mkCar 0 0 0 1) ⟨false, false, false, false⟩ rfl rfl).1
    (by norm_num [mkCar]) (by norm_num [mkCar, MAX_SPEED, FRICTION])

/-- Euclidean distance between two car centers, the dx/dy/distance pattern
that checkCarCollision and resolveCarCollision in src/unnamed/part_006 share. -/
noncomputable def carDist (c1 c2 : Car) : ℝ :=
  Real.sqrt ((c1.x - c2.x) * (c1.x - c2.x) + (c1.y - c2.y) * (c1.y - c2.y))

/-- resolveCarCollision from src/unnamed/part_006 lines 225 to 256. -/
noncomputable def resolveCarCollision (c1 c2 : Car) : Car × Car :=
  let dx := c1.x - c2.x
  let dy := c1.y - c2.y
  let distance := Real.sqrt (dx * dx + dy * dy)
  if distance = 0 then (c1, c2)
  else
    let normalX := dx / distance
    let normalY := dy / distance
    let minDistance := CAR_SIZE + COLLISION_BUFFER
    let overlap := minDistance - distance
    let separateX := normalX * overlap * 0.5
    let separateY := normalY * overlap * 0.5
    ({ c1 with x := c1.x + separateX, y := c1.y + separateY, speed := c1.speed * 0.5 },
     { c2 with x := c2.x - separateX, y := c2.y - separateY, speed := c2.speed * 0.5 })

/-- C3: when the two centers are distinct, resolveCarCollision displaces the
cars by equal and opposite vectors along the line of centers, each of length
half the overlap (CAR_SIZE + COLLISION_BUFFER - distance) * 0.5, and halves
both speeds; when the centers coincide it returns both cars unchanged. -/
theorem resolveCarCollision_spec (c1 c2 : Car) :
    (carDist c1 c2 = 0 → resolveCarCollision c1 c2 = (c1, c2)) ∧
    (carDist c1 c2 ≠ 0 →
      (resolveCarCollision c1 c2).1.x - c1.x = -((resolveCarCollision c1 c2).2.x - c2.x) ∧
      (resolveCarCollision c1 c2).1.y - c1.y = -((resolveCarCollision c1 c2).2.y - c2.y) ∧
      ((resolveCarCollision c1 c2).1.x - c1.x) ^ 2 + ((resolveCarCollision c1 c2).1.y - c1.y) ^ 2 =
        ((CAR_SIZE + COLLISION_BUFFER - carDist c1 c2) * 0.5) ^ 2 ∧
      ((resolveCarCollision c1 c2).1.x - c1.x) * (c1.y - c2.y) =
        ((resolveCarCollision c1 c2).1.y - c1.y) * (c1.x - c2.x) ∧
      (resolveCarCollision c1 c2).1.speed = c1.speed * 0.5 ∧
      (resolveCarCollision c1 c2).2.speed = c2.speed * 0.5) := by
  constructor
  · intro h
    unfold resolveCarCollision
    rw [if_pos (by exact h)]
  · intro h
    have hnn : (0:ℝ) ≤ (c1.x - c2.x) * (c1.x - c2.x) + (c1.y - c2.y) * (c1.y - c2.y) := by
      nlinarith [sq_nonneg (c1.x - c2.x), sq_nonneg (c1.y - c2.y)]
    have hd2 : carDist c1 c2 ^ 2 =
        (c1.x - c2.x) * (c1.x - c2.x) + (c1.y - c2.y) * (c1.y - c2.y) := by
      unfold carDist
      exact Real.sq_sqrt hnn
    have hr : resolveCarCollision c1 c2 =
        ({ c1 with
            x := c1.x + (c1.x - c2.x) / carDist c1 c2 * (CAR_SIZE + COLLISION_BUFFER - carDist c1 c2) * 0.5,
            y := c1.y + (c1.y - c2.y) / carDist c1 c2 * (CAR_SIZE + COLLISION_BUFFER - carDist c1 c2) * 0.5,
            speed := c1.speed * 0.5 },
         { c2 with
            x := c2.x - (c1.x - c2.x) / carDist c1 c2 * (CAR_SIZE + COLLISION_BUFFER - carDist c1 c2) * 0.5,
            y := c2.y - (c1.y - c2.y) / carDist c1 c2 * (CAR_SIZE + COLLISION_BUFFER - carDist c1 c2) * 0.5,
            speed := c2.speed * 0.5 }) := by
      unfold resolveCarCollision carDist at *
      rw [if_neg h]
    rw [hr]
    refine ⟨by ring, by ring, ?_, by ring, rfl, rfl⟩
    have hd0 : carDist c1 c2 ≠ 0 := h
    field_simp
    nlinarith [hd2]

/-- C3 witness: cars centered at (0,0) and (3,4) are at distance 5; the first
car's speed 2 is halved to 1 and the second car's speed 6 is halved to 3. -/
theorem resolveCarCollision_spec_witness :
    (resolveCarCollision (mkCar 0 0 0 2) (mkCar 3 4 0 6)).1.speed =
        (mkCar 0 0 0 2).speed * 0.5 ∧
    (resolveCarCollision (mkCar 0 0 0 2) (mkCar 3 4 0 6)).2.speed =
        (mkCar 3 4 0 6).speed * 0.5 := by
  have h5 : carDist (mkCar 0 0 0 2) (mkCar 3 4 0 6) = 5 := by
    unfold carDist mkCar
    rw [show ((0:ℝ) - 3) * ((0:ℝ) - 3) + ((0:ℝ) - 4) * ((0:ℝ) - 4) = 5 ^ 2 by norm_num]
    exact Real.sqrt_sq (by norm_num)
  have h := (resolveCarCollision_spec (mkCar 0 0 0 2) (mkCar 3 4 0 6)).2 (by rw [h5]; norm_num)
  exact ⟨h.2.2.2.2.1, h.2.2.2.2.2⟩

/-- calculateTrackProgress from src/unnamed/part_006 lines 205 to 223, read
with total real division.  This is the value the ranking comparator consumes;
it agrees with the source except where the source divides by zero (start and
finish centers coincident), the case calculateTrackProgressJS makes exact. -/
noncomputable def calculateTrackProgress (car : Car) (m : MapData) : ℝ :=
  match m.start, m.finish with
  | some st, some fi =>
    let startX := (st.x : ℝ) * CELL_SIZE + CELL_SIZE / 2
    let startY := (st.y : ℝ) * CELL_SIZE + CELL_SIZE / 2
    let finishX := (fi.x : ℝ) * CELL_SIZE + CELL_SIZE / 2
    let finishY := (fi.y : ℝ) * CELL_SIZE + CELL_SIZE / 2
    let totalDistance := Real.sqrt ((finishX - startX) ^ 2 + (finishY - startY) ^ 2)
    let currentDistance := Real.sqrt ((car.x - startX) ^ 2 + (car.y - startY) ^ 2)
    min 1 (currentDistance / totalDistance)
  | _, _ => 0

/-- calculateTrackProgress with the source's JavaScript number semantics at
the unguarded division (src/unnamed/part_006 line 222).  When the start and
finish centers coincide, totalDistance is 0: a car exactly at that center
computes 0 / 0 = NaN and Math.min(1, NaN) = NaN, modelled as none; any other
car computes d / 0 = Infinity and Math.min(1, Infinity) = 1.  Off that
degenerate case the division is the real one. -/
noncomputable def calculateTrackProgressJS (car : Car) (m : MapData) : Option ℝ :=
  match m.start, m.finish with
  | some st, some fi =>
    let startX := (st.x : ℝ) * CELL_SIZE + CELL_SIZE / 2
    let startY := (st.y : ℝ) * CELL_SIZE + CELL_SIZE / 2
    let finishX := (fi.x : ℝ) * CELL_SIZE + CELL_SIZE / 2
    let finishY := (fi.y : ℝ) * CELL_SIZE + CELL_SIZE / 2
    let totalDistance := Real.sqrt ((finishX - startX) ^ 2 + (finishY - startY) ^ 2)
    let currentDistance := Real.sqrt ((car.x - startX) ^ 2 + (car.y - startY) ^ 2)
    if totalDistance = 0 then
      if currentDistance = 0 then none
      else some 1
    else some (min 1 (currentDistance / totalDistance))
  | _, _ => some 0

/-- A map whose start and finish point at the same cell: in Editor.tsx
placing FINISH sets the finish field without clearing an equal start field,
so this MapData is reachable. -/
def sameCellMap : MapData := ⟨[], some ⟨0, 0⟩, some ⟨0, 0⟩, [], 3⟩

/-- C4 counterexample: on the reachable map whose start and finish cells
coincide, the car standing exactly at the start cell center (10, 10) — where
car-0 spawns — makes the source compute 0 / 0 = NaN (modelled as none), so
the progress is not 0 at the start center and does not lie in [0, 1]. -/
theorem calculateTrackProgress_nan_at_degenerate :
    (mkCar 10 10 0 0).x = ((0 : ℤ) : ℝ) * CELL_SIZE + CELL_SIZE / 2 ∧
    (mkCar 10 10 0 0).y = ((0 : ℤ) : ℝ) * CELL_SIZE + CELL_SIZE / 2 ∧
    calculateTrackProgressJS (mkCar 10 10 0 0) sameCellMap = none := by
  refine ⟨by norm_num [mkCar, CELL_SIZE], by norm_num [mkCar, CELL_SIZE], ?_⟩
  unfold calculateTrackProgressJS sameCellMap mkCar CELL_SIZE
  norm_num

/-- C4 (amended): with a start and a finish cell defined whose centers are
distinct, the source computes the real value: calculateTrackProgressJS is
some of calculateTrackProgress, which is min(1, d / D) for d the distance
from the car center to the start center and D the start-to-finish center
distance; it lies in [0, 1] and is 0 exactly at the start center.  When the
two centers coincide the unguarded division instead yields NaN (car at the
common center) or 1 (elsewhere). -/
theorem calculateTrackProgress_spec (car : Car) (m : MapData) (st fi : GridPos)
    (hs : m.start = some st) (hf : m.finish = some fi)
    (hD : Real.sqrt ((((fi.x : ℝ) * CELL_SIZE + CELL_SIZE / 2) - ((st.x : ℝ) * CELL_SIZE + CELL_SIZE / 2)) ^ 2 +
                     (((fi.y : ℝ) * CELL_SIZE + CELL_SIZE / 2) - ((st.y : ℝ) * CELL_SIZE + CELL_SIZE / 2)) ^ 2) ≠ 0) :
    calculateTrackProgressJS car m = some (calculateTrackProgress car m) ∧
    calculateTrackProgress car m =
      min 1 (Real.sqrt ((car.x - ((st.x : ℝ) * CELL_SIZE + CELL_SIZE / 2)) ^ 2 +
                        (car.y - ((st.y : ℝ) * CELL_SIZE + CELL_SIZE / 2)) ^ 2) /
             Real.sqrt ((((fi.x : ℝ) * CELL_SIZE + CELL_SIZE / 2) - ((st.x : ℝ) * CELL_SIZE + CELL_SIZE / 2)) ^ 2 +
                        (((fi.y : ℝ) * CELL_SIZE + CELL_SIZE / 2) - ((st.y : ℝ) * CELL_SIZE + CELL_SIZE / 2)) ^ 2)) ∧
    0 ≤ calculateTrackProgress car m ∧
    calculateTrackProgress car m ≤ 1 ∧
    (car.x = (st.x : ℝ) * CELL_SIZE + CELL_SIZE / 2 →
     car.y = (st.y : ℝ) * CELL_SIZE + CELL_SIZE / 2 →
     calculateTrackProgress car m = 0) := by
  have heq : calculateTrackProgress car m =
      min 1 (Real.sqrt ((car.x - ((st.x : ℝ) * CELL_SIZE + CELL_SIZE / 2)) ^ 2 +
                        (car.y - ((st.y : ℝ) * CELL_SIZE + CELL_SIZE / 2)) ^ 2) /
             Real.sqrt ((((fi.x : ℝ) * CELL_SIZE + CELL_SIZE / 2) - ((st.x : ℝ) * CELL_SIZE + CELL_SIZE / 2)) ^ 2 +
                        (((fi.y : ℝ) * CELL_SIZE + CELL_SIZE / 2) - ((st.y : ℝ) * CELL_SIZE + CELL_SIZE / 2)) ^ 2)) := by
    unfold calculateTrackProgress
    rw [hs, hf]
  have hjs : calculateTrackProgressJS car m = some (calculateTrackProgress car m) := by
    unfold calculateTrackProgressJS
    rw [hs, hf]
    dsimp only
    rw [if_neg hD, heq]
  refine ⟨hjs, heq, ?_, ?_, ?_⟩
  · rw [heq]
    exact le_min zero_le_one (div_nonneg (Real.sqrt_nonneg _) (Real.sqrt_nonneg _))
  · rw [heq]
    exact min_le_left _ _
  · intro hx hy
    rw [heq, hx, hy]
    simp

/-- C4 witness: a track with start cell (0,0) and finish cell (3,0), centers
60 apart; the car standing exactly at the start center (10, 10) has
progress 0, also under the JavaScript division semantics. -/
theorem calculateTrackProgress_spec_witness :
    calculateTrackProgressJS (mkCar 10 10 0 0)
      ⟨[], some ⟨0, 0⟩, some ⟨3, 0⟩, [], 3⟩ = some 0 := by
  have h := calculateTrackProgress_spec (mkCar 10 10 0 0)
    ⟨[], some ⟨0, 0⟩, some ⟨3, 0⟩, [], 3⟩ ⟨0, 0⟩ ⟨3, 0⟩ rfl rfl
    (by
      rw [show ((((3:ℤ) : ℝ) * CELL_SIZE + CELL_SIZE / 2) - (((0:ℤ) : ℝ) * CELL_SIZE + CELL_SIZE / 2)) ^ 2 +
              ((((0:ℤ) : ℝ) * CELL_SIZE + CELL_SIZE / 2) - (((0:ℤ) : ℝ) * CELL_SIZE + CELL_SIZE / 2)) ^ 2 =
            60 ^ 2 from by norm_num [CELL_SIZE],
          Real.sqrt_sq (by norm_num : (0:ℝ) ≤ 60)]
      norm_num)
  rw [h.1, h.2.2.2.2
    (by show (10:ℝ) = ((0:ℤ) : ℝ) * CELL_SIZE + CELL_SIZE / 2; norm_num [CELL_SIZE])
    (by show (10:ℝ) = ((0:ℤ) : ℝ) * CELL_SIZE + CELL_SIZE / 2; norm_num [CELL_SIZE])]

/-- Grid width as the source reads it: mapData.grid[0]?.length. -/
def gridW (m : MapData) : ℕ := (m.grid.headD []).length

/-- Grid height as the source reads it: mapData.grid.length. -/
def gridH (m : MapData) : ℕ := m.grid.length

/-- Cell lookup mapData.grid[gridY][gridX].  In the source an out-of-range
index yields undefined, which compares unequal to WALL; the lookup is only
reached after the bounds test, so the ROAD default encodes that outcome. -/
def cellAt (m : MapData) (gx gy : ℤ) : ℕ := (m.grid.getD gy.toNat []).getD gx.toNat ROAD

/-- The four axis-aligned corners of the car's bounding box, in source order. -/
noncomputable def cornersOf (car : Car) : List (ℝ × ℝ) :=
  [(car.x - CAR_SIZE / 2, car.y - CAR_SIZE / 2),
   (car.x + CAR_SIZE / 2, car.y - CAR_SIZE / 2),
   (car.x - CAR_SIZE / 2, car.y + CAR_SIZE / 2),
   (car.x + CAR_SIZE / 2, car.y + CAR_SIZE / 2)]

/-- The per-corner test inside checkWallCollision (src/unnamed/part_006 lines
102 to 112): the corner's grid cell is out of the grid or is a wall cell. -/
noncomputable def cornerHitsWall (m : MapData) (p : ℝ × ℝ) : Bool :=
  decide (⌊p.1 / CELL_SIZE⌋ < 0) || decide ((gridW m : ℤ) ≤ ⌊p.1 / CELL_SIZE⌋) ||
  decide (⌊p.2 / CELL_SIZE⌋ < 0) || decide ((gridH m : ℤ) ≤ ⌊p.2 / CELL_SIZE⌋) ||
  decide (cellAt m ⌊p.1 / CELL_SIZE⌋ ⌊p.2 / CELL_SIZE⌋ = WALL)

/-- checkWallCollision from src/unnamed/part_006 lines 84 to 113: a bounding
box test against the 800 by 600 game canvas, then the four-corner grid test. -/
noncomputable def checkWallCollision (car : Car) (m : MapData) : Bool :=
  decide (car.x - CAR_SIZE / 2 < 0) || decide (CANVAS_WIDTH ≤ car.x + CAR_SIZE / 2) ||
  decide (car.y - CAR_SIZE / 2 < 0) || decide (CANVAS_HEIGHT ≤ car.y + CAR_SIZE / 2) ||
  (cornersOf car).any (fun p => cornerHitsWall m p)

/-- The condition the claim describes for one corner: it lies outside the grid
bounds or lands in a wall-kind cell. -/
def cornerOutsideOrWall (m : MapData) (p : ℝ × ℝ) : Prop :=
  ⌊p.1 / CELL_SIZE⌋ < 0 ∨ (gridW m : ℤ) ≤ ⌊p.1 / CELL_SIZE⌋ ∨
  ⌊p.2 / CELL_SIZE⌋ < 0 ∨ (gridH m : ℤ) ≤ ⌊p.2 / CELL_SIZE⌋ ∨
  cellAt m ⌊p.1 / CELL_SIZE⌋ ⌊p.2 / CELL_SIZE⌋ = WALL

/-- A 60 by 45 all-road grid, the dimensions the track editor actually builds
(1200 by 900 canvas at cell size 20), with no start or finish set. -/
def bigMap : MapData := ⟨List.replicate 45 (List.replicate 60 ROAD), none, none, [], 3⟩

theorem cellAt_bigMap (gx gy : ℤ) (hx1 : 0 ≤ gx) (hx2 : gx < 60) (hy1 : 0 ≤ gy) (hy2 : gy < 45) :
    cellAt bigMap gx gy = ROAD := by
  have hgy : gy.toNat < 45 := (Int.toNat_lt hy1).mpr hy2
  have hgx : gx.toNat < 60 := (Int.toNat_lt hx1).mpr hx2
  show ((List.replicate 45 (List.replicate 60 ROAD)).getD gy.toNat []).getD gx.toNat ROAD = ROAD
  have houter : (List.replicate 45 (List.replicate 60 ROAD)).getD gy.toNat [] =
      List.replicate 60 ROAD := by
    rw [List.getD_eq_getElem?_getD, List.getElem?_replicate, if_pos hgy]
    rfl
  rw [houter, List.getD_eq_getElem?_getD, List.getElem?_replicate, if_pos hgx]
  rfl

/-- C6 counterexample: with the editor's 60-column all-road grid, a car at
(796, 300) trips the canvas-bounds precheck (796 + 8 is beyond the 800-pixel
game canvas), although each of its four corners lies inside the grid on a
road cell; so the collision check is not equivalent to the four-corner rule. -/
theorem checkWallCollision_not_corner_rule :
    checkWallCollision (mkCar 796 300 0 0) bigMap = true ∧
    ¬ ∃ p ∈ cornersOf (mkCar 796 300 0 0), cornerOutsideOrWall bigMap p := by
  constructor
  · unfold checkWallCollision mkCar CANVAS_WIDTH CAR_SIZE
    simp only [Bool.or_eq_true, decide_eq_true_eq]
    left; left; left; right
    norm_num
  · rintro ⟨p, hp, hbad⟩
    have h60 : gridW bigMap = 60 := by
      unfold gridW bigMap
      simp
    have h45 : gridH bigMap = 45 := by
      unfold gridH bigMap
      simp
    unfold mkCar cornersOf CAR_SIZE at hp
    norm_num at hp
    rcases hp with h | h | h | h <;>
      · rw [h] at hbad
        unfold cornerOutsideOrWall at hbad
        rw [h60, h45] at hbad
        norm_num [CELL_SIZE] at hbad
        rw [cellAt_bigMap _ _ (by norm_num) (by norm_num) (by norm_num) (by norm_num)] at hbad
        simp [ROAD, WALL] at hbad

/-- C6 (amended): checkWallCollision returns true exactly when the car's
bounding box leaves the 800 by 600 game canvas, or at least one of the four
corners lies outside the grid bounds or in a wall-kind cell.  (The claimed
pure four-corner rule holds only for the grid-bounds part; the canvas
precheck is an additional condition, visible on the editor's 60 by 45 grid.) -/
theorem checkWallCollision_iff (car : Car) (m : MapData) :
    checkWallCollision car m = true ↔
      ((car.x - CAR_SIZE / 2 < 0 ∨ CANVAS_WIDTH ≤ car.x + CAR_SIZE / 2 ∨
        car.y - CAR_SIZE / 2 < 0 ∨ CANVAS_HEIGHT ≤ car.y + CAR_SIZE / 2) ∨
       ∃ p ∈ cornersOf car, cornerOutsideOrWall m p) := by
  unfold checkWallCollision cornerHitsWall cornerOutsideOrWall
  simp [List.any_eq_true, or_assoc]

/-- Search radius of getDistanceToNearestWall (src/unnamed/part_006 line 166). -/
def SEARCH_RADIUS : ℝ := 100

/-- The eight ray directions of getDistanceToNearestWall (line 170). -/
noncomputable def rayAngles : List ℝ :=
  [0, Real.pi / 4, Real.pi / 2, 3 * Real.pi / 4, Real.pi,
   5 * Real.pi / 4, 3 * Real.pi / 2, 7 * Real.pi / 4]

/-- The distances the ray-march loop visits: distance starts at CAR_SIZE and
advances by 5 while distance is at most SEARCH_RADIUS, so 16, 21, ..., 96. -/
noncomputable def rayDistances : List ℝ :=
  (List.range 17).map (fun k => CAR_SIZE + 5 * (k : ℕ))

/-- The hit test of one ray-march step (lines 177 to 182): the probed point's
grid cell is outside the grid or is a wall cell. -/
noncomputable def wallRayHits (car : Car) (m : MapData) (angle distance : ℝ) : Bool :=
  let checkX := car.x + Real.cos angle * distance
  let checkY := car.y + Real.sin angle * distance
  decide (⌊checkX / CELL_SIZE⌋ < 0) || decide ((gridW m : ℤ) ≤ ⌊checkX / CELL_SIZE⌋) ||
  decide (⌊checkY / CELL_SIZE⌋ < 0) || decide ((gridH m : ℤ) ≤ ⌊checkY / CELL_SIZE⌋) ||
  decide (cellAt m ⌊checkX / CELL_SIZE⌋ ⌊checkY / CELL_SIZE⌋ = WALL)

/-- One ray of getDistanceToNearestWall: the first marched distance whose
probe hits (the loop breaks at the first hit), none when the ray finds no
wall within the search radius. -/
noncomputable def rayWallDistance (car : Car) (m : MapData) (angle : ℝ) : Option ℝ :=
  rayDistances.find? (fun d => wallRayHits car m angle d)

/-- getDistanceToNearestWall from src/unnamed/part_006 lines 163 to 190:
minimum over the eight rays of the first hit distance, starting from the
search radius. -/
noncomputable def getDistanceToNearestWall (car : Car) (m : MapData) : ℝ :=
  rayAngles.foldl (fun minDistance angle =>
    match rayWallDistance car m angle with
    | some d => min minDistance d
    | none => minDistance) SEARCH_RADIUS

theorem mem_rayDistances_bounds (d : ℝ) (hd : d ∈ rayDistances) :
    CAR_SIZE ≤ d ∧ d ≤ SEARCH_RADIUS := by
  unfold rayDistances at hd
  simp only [List.mem_map, List.mem_range] at hd
  obtain ⟨k, hk, rfl⟩ := hd
  have hk16 : (k : ℝ) ≤ 16 := by
    have : k ≤ 16 := Nat.lt_succ_iff.mp hk
    exact_mod_cast this
  have hk0 : (0 : ℝ) ≤ (k : ℝ) := Nat.cast_nonneg k
  unfold CAR_SIZE SEARCH_RADIUS
  constructor <;> linarith

/-- C10: getDistanceToNearestWall always returns a value in
[CAR_SIZE, SEARCH_RADIUS] = [16, 100] — the march starts at distance CAR_SIZE,
so no smaller wall distance is ever reported, even with the car against or
inside a wall — and it returns the full search radius when no ray hits. -/
theorem getDistanceToNearestWall_range (car : Car) (m : MapData) :
    CAR_SIZE ≤ getDistanceToNearestWall car m ∧
    getDistanceToNearestWall car m ≤ SEARCH_RADIUS ∧
    ((∀ a ∈ rayAngles, rayWallDistance car m a = none) →
      getDistanceToNearestWall car m = SEARCH_RADIUS) := by
  have key : ∀ (as : List ℝ) (x : ℝ), CAR_SIZE ≤ x → x ≤ SEARCH_RADIUS →
      CAR_SIZE ≤ as.foldl (fun minDistance angle =>
        match rayWallDistance car m angle with
        | some d => min minDistance d
        | none => minDistance) x ∧
      as.foldl (fun minDistance angle =>
        match rayWallDistance car m angle with
        | some d => min minDistance d
        | none => minDistance) x ≤ SEARCH_RADIUS := by
    intro as
    induction as with
    | nil => intro x h1 h2; exact ⟨h1, h2⟩
    | cons a as ih =>
      intro x h1 h2
      rw [List.foldl_cons]
      rcases hfind : rayWallDistance car m a with _ | d
      · simpa [hfind] using ih x h1 h2
      · have hdmem : d ∈ rayDistances := List.mem_of_find?_eq_some hfind
        obtain ⟨hd1, hd2⟩ := mem_rayDistances_bounds d hdmem
        have := ih (min x d) (le_min h1 hd1) (le_trans (min_le_left _ _) h2)
        simpa [hfind] using this
  have keep : ∀ (as : List ℝ) (x : ℝ), (∀ a ∈ as, rayWallDistance car m a = none) →
      as.foldl (fun minDistance angle =>
        match rayWallDistance car m angle with
        | some d => min minDistance d
        | none => minDistance) x = x := by
    intro as
    induction as with
    | nil => intro x _; rfl
    | cons a as ih =>
      intro x hall
      rw [List.foldl_cons, hall a (List.mem_cons_self a as)]
      exact ih x (fun b hb => hall b (List.mem_cons_of_mem a hb))
  have hcs : CAR_SIZE ≤ SEARCH_RADIUS := by unfold CAR_SIZE SEARCH_RADIUS; norm_num
  refine ⟨(key rayAngles SEARCH_RADIUS hcs le_rfl).1,
          (key rayAngles SEARCH_RADIUS hcs le_rfl).2, ?_⟩
  intro hall
  exact keep rayAngles SEARCH_RADIUS hall

theorem bigMap_ray_none (a d : ℝ) (hd : d ∈ rayDistances) :
    wallRayHits (mkCar 400 300 0 0) bigMap a d = false := by
  obtain ⟨h16, h100⟩ := mem_rayDistances_bounds d hd
  have hd0 : (0 : ℝ) ≤ d := le_trans (by unfold CAR_SIZE; norm_num) h16
  have hcos1 : Real.cos a * d ≤ d := by
    nlinarith [Real.cos_le_one a]
  have hcos2 : -d ≤ Real.cos a * d := by
    nlinarith [Real.neg_one_le_cos a]
  have hsin1 : Real.sin a * d ≤ d := by
    nlinarith [Real.sin_le_one a]
  have hsin2 : -d ≤ Real.sin a * d := by
    nlinarith [Real.neg_one_le_sin a]
  unfold CAR_SIZE at h16
  unfold SEARCH_RADIUS at h100
  unfold wallRayHits mkCar CELL_SIZE
  have hgw : gridW bigMap = 60 := by unfold gridW bigMap; simp
  have hgh : gridH bigMap = 45 := by unfold gridH bigMap; simp
  rw [hgw, hgh]
  have hx1 : (0 : ℤ) ≤ ⌊(400 + Real.cos a * d) / 20⌋ := by
    rw [Int.le_floor]
    push_cast
    nlinarith
  have hx2 : ⌊(400 + Real.cos a * d) / 20⌋ < 60 := by
    rw [Int.floor_lt]
    push_cast
    nlinarith
  have hy1 : (0 : ℤ) ≤ ⌊(300 + Real.sin a * d) / 20⌋ := by
    rw [Int.le_floor]
    push_cast
    nlinarith
  have hy2 : ⌊(300 + Real.sin a * d) / 20⌋ < 45 := by
    rw [Int.floor_lt]
    push_cast
    nlinarith
  have hcell := cellAt_bigMap _ _ hx1 hx2 hy1 hy2
  simp only [Bool.or_eq_false_iff, decide_eq_false_iff_not]
  refine ⟨⟨⟨⟨?_, ?_⟩, ?_⟩, ?_⟩, ?_⟩
  · exact Int.not_lt.mpr hx1
  · exact Int.not_le.mpr hx2
  · exact Int.not_lt.mpr hy1
  · exact Int.not_le.mpr hy2
  · rw [hcell]
    unfold ROAD WALL
    norm_num

/-- C10 witness: a car at the center region of the editor's all-road grid,
with every wall farther than the search radius, reports exactly 100. -/
theorem getDistanceToNearestWall_range_witness :
    getDistanceToNearestWall (mkCar 400 300 0 0) bigMap = SEARCH_RADIUS :=
  (getDistanceToNearestWall_range (mkCar 400 300 0 0) bigMap).2.2
    (fun a _ => by
      unfold rayWallDistance
      rw [List.find?_eq_none]
      intro d hd
      rw [bigMap_ray_none a d hd]
      simp)

/- DQN agent hyperparameters from src/src/ai/agent.ts lines 48 to 59. -/

def epsilonMin : ℚ := 0.01
def epsilonDecay : ℚ := 0.995
def batchSize : ℕ := 32
def maxReplayBufferSize : ℕ := 10000
def targetUpdateFreq : ℕ := 100
def replayThreshold : ℕ := 4

/-- The Action enum of src/src/ai/agent.ts. -/
inductive Action
  | ACCELERATE
  | BRAKE
  | TURN_LEFT
  | TURN_RIGHT
  | NO_ACTION
deriving DecidableEq

/-- The Experience record of src/src/ai/agent.ts lines 36 to 42: normalized
state vectors, the action taken, the shaped reward and the terminal flag. -/
structure Experience where
  state : List ℚ
  action : Action
  reward : ℚ
  nextState : List ℚ
  done : Bool
deriving DecidableEq

/-- The mutable fields of DQNAgent that remember and replay touch.  The two
tensorflow networks are represented by their weight lists; what model.fit
computes is external library code and enters replay as a parameter. -/
structure AgentState where
  modelW : List ℚ
  targetW : List ℚ
  replayBuffer : List Experience
  epsilon : ℚ
  updateCounter : ℕ
  replayCallCount : ℕ
  isTraining : Bool
deriving DecidableEq

/-- getEpsilon from src/src/ai/agent.ts line 301. -/
def getEpsilon (s : AgentState) : ℚ := s.epsilon

/-- The buffer update of remember (src/src/ai/agent.ts lines 201 to 205):
push the experience, then drop the oldest entry if the capacity is exceeded. -/
def bufPush (buf : List Experience) (e : Experience) : List Experience :=
  let b := buf ++ [e]
  if maxReplayBufferSize < b.length then b.tail else b

/-- remember from src/src/ai/agent.ts lines 186 to 206.  The source builds the
experience from normalizeState of the two game states; here the built
experience is the argument, since only the buffer mechanics are at stake. -/
def remember (s : AgentState) (e : Experience) : AgentState :=
  { s with replayBuffer := bufPush s.replayBuffer e }

/-- replay from src/src/ai/agent.ts lines 208 to 293: the three guards
(buffer below batchSize, concurrent-training flag, every-4th-call throttle),
then one training step.  The minibatch regression itself runs inside
tensorflow; its resulting live-network weights enter as the fitW parameter.
The isTraining flag is set during the step and cleared in the finally block,
so across a completed synchronous call it is unchanged. -/
def replay (fitW : List ℚ) (s : AgentState) : AgentState :=
  if s.replayBuffer.length < batchSize then s
  else if s.isTraining then s
  else
    let s1 : AgentState := { s with replayCallCount := s.replayCallCount + 1 }
    if s1.replayCallCount % replayThreshold ≠ 0 then s1
    else
      let s2 : AgentState := { s1 with modelW := fitW, updateCounter := s1.updateCounter + 1 }
      let s3 : AgentState :=
        if s2.updateCounter % targetUpdateFreq = 0 then { s2 with targetW := s2.modelW } else s2
      if epsilonMin < s3.epsilon then { s3 with epsilon := s3.epsilon * epsilonDecay } else s3

/-- The epsilon update of one completed training step (agent.ts lines 284 to
287): multiply by the decay while strictly above the floor. -/
def epsStep (e : ℚ) : ℚ := if epsilonMin < e then e * epsilonDecay else e

/-- Epsilon after n completed training steps, starting from 1.0. -/
def epsAfter (n : ℕ) : ℚ := epsStep^[n] 1

/-- A freshly constructed DQNAgent (epsilon 1.0, zero counters, not training)
holding the given replay buffer. -/
def initialAgent (buf : List Experience) : AgentState := ⟨[], [], buf, 1, 0, 0, false⟩

/-- A throwaway experience for concrete buffers. -/
def dummyExp : Experience := ⟨[], Action.NO_ACTION, 0, [], false⟩

theorem replay_nonTrain (fitW : List ℚ) (s : AgentState)
    (hlen : batchSize ≤ s.replayBuffer.length) (hT : s.isTraining = false)
    (hc : (s.replayCallCount + 1) % replayThreshold ≠ 0) :
    replay fitW s = { s with replayCallCount := s.replayCallCount + 1 } := by
  unfold replay
  rw [if_neg (not_lt.mpr hlen), if_neg (by rw [hT]; exact Bool.false_ne_true), if_pos hc]

theorem replay_train (fitW : List ℚ) (s : AgentState)
    (hlen : batchSize ≤ s.replayBuffer.length) (hT : s.isTraining = false)
    (hc : (s.replayCallCount + 1) % replayThreshold = 0) :
    (replay fitW s).epsilon = epsStep s.epsilon ∧
    (replay fitW s).replayBuffer = s.replayBuffer ∧
    (replay fitW s).isTraining = false ∧
    (replay fitW s).replayCallCount = s.replayCallCount + 1 := by
  unfold replay
  rw [if_neg (not_lt.mpr hlen), if_neg (by rw [hT]; exact Bool.false_ne_true),
      if_neg (by simpa using hc)]
  dsimp only
  unfold epsStep
  by_cases hu : (s.updateCounter + 1) % targetUpdateFreq = 0
  · rw [if_pos hu]
    split_ifs <;> simp_all
  · rw [if_neg hu]
    split_ifs <;> simp_all

theorem replay_four (fitW : List ℚ) (s : AgentState)
    (hlen : batchSize ≤ s.replayBuffer.length) (hT : s.isTraining = false)
    (hc : s.replayCallCount % replayThreshold = 0) :
    ((replay fitW)^[4] s).epsilon = epsStep s.epsilon ∧
    ((replay fitW)^[4] s).replayBuffer = s.replayBuffer ∧
    ((replay fitW)^[4] s).isTraining = false ∧
    ((replay fitW)^[4] s).replayCallCount = s.replayCallCount + 4 := by
  have h4 : (replay fitW)^[4] s =
      replay fitW (replay fitW (replay fitW (replay fitW s))) := by
    rw [Function.iterate_succ_apply', Function.iterate_succ_apply',
        Function.iterate_succ_apply', Function.iterate_one]
  have e1 : replay fitW s = { s with replayCallCount := s.replayCallCount + 1 } :=
    replay_nonTrain fitW s hlen hT (by unfold replayThreshold at *; omega)
  have e2 : replay fitW { s with replayCallCount := s.replayCallCount + 1 } =
      { s with replayCallCount := s.replayCallCount + 2 } := by
    have h := replay_nonTrain fitW { s with replayCallCount := s.replayCallCount + 1 }
      hlen hT
      (by show (s.replayCallCount + 1 + 1) % replayThreshold ≠ 0; unfold replayThreshold at *; omega)
    rw [h]
  have e3 : replay fitW { s with replayCallCount := s.replayCallCount + 2 } =
      { s with replayCallCount := s.replayCallCount + 3 } := by
    have h := replay_nonTrain fitW { s with replayCallCount := s.replayCallCount + 2 }
      hlen hT
      (by show (s.replayCallCount + 2 + 1) % replayThreshold ≠ 0; unfold replayThreshold at *; omega)
    rw [h]
  have e4 := replay_train fitW { s with replayCallCount := s.replayCallCount + 3 }
      hlen hT
      (by show (s.replayCallCount + 3 + 1) % replayThreshold = 0; unfold replayThreshold at *; omega)
  rw [h4, e1, e2, e3]
  exact ⟨e4.1, e4.2.1, e4.2.2.1, e4.2.2.2⟩

theorem replayIter_state (fitW : List ℚ) (buf : List Experience)
    (hlen : batchSize ≤ buf.length) (N : ℕ) :
    ((replay fitW)^[4 * N] (initialAgent buf)).epsilon = epsAfter N ∧
    ((replay fitW)^[4 * N] (initialAgent buf)).replayBuffer = buf ∧
    ((replay fitW)^[4 * N] (initialAgent buf)).isTraining = false ∧
    ((replay fitW)^[4 * N] (initialAgent buf)).replayCallCount % replayThreshold = 0 := by
  induction N with
  | zero => exact ⟨rfl, rfl, rfl, rfl⟩
  | succ n ih =>
    obtain ⟨ihe, ihb, iht, ihc⟩ := ih
    have hstep : (replay fitW)^[4 * (n + 1)] (initialAgent buf) =
        (replay fitW)^[4] ((replay fitW)^[4 * n] (initialAgent buf)) := by
      rw [show 4 * (n + 1) = 4 + 4 * n by ring, Function.iterate_add_apply]
    have h4 := replay_four fitW ((replay fitW)^[4 * n] (initialAgent buf))
      (by rw [ihb]; exact hlen) iht ihc
    refine ⟨?_, ?_, ?_, ?_⟩
    · rw [hstep, h4.1, ihe, epsAfter, epsAfter, Function.iterate_succ_apply']
    · rw [hstep, h4.2.1, ihb]
    · rw [hstep]; exact h4.2.2.1
    · rw [hstep, h4.2.2.2]
      unfold replayThreshold at ihc ⊢
      omega

theorem eps_pow_918 : epsilonMin < epsilonDecay ^ 918 := by
  unfold epsilonMin epsilonDecay
  rw [show (0.995 : ℚ) = 199 / 200 by norm_num, div_pow,
      show (0.01 : ℚ) = 1 / 100 by norm_num,
      div_lt_div_iff₀ (by norm_num) (by positivity)]
  norm_num

theorem eps_pow_919 : epsilonDecay ^ 919 < epsilonMin := by
  unfold epsilonMin epsilonDecay
  rw [show (0.995 : ℚ) = 199 / 200 by norm_num, div_pow,
      show (0.01 : ℚ) = 1 / 100 by norm_num,
      div_lt_div_iff₀ (by positivity) (by norm_num)]
  norm_num

theorem epsAfter_closed (n : ℕ) : epsAfter n = epsilonDecay ^ min n 919 := by
  induction n with
  | zero => simp [epsAfter]
  | succ n ih =>
    rw [epsAfter, Function.iterate_succ_apply']
    have hrw : epsStep^[n] 1 = epsilonDecay ^ min n 919 := ih
    rw [hrw]
    by_cases hn : n ≤ 918
    · have hmin : min n 919 = n := by omega
      have hlt : epsilonMin < epsilonDecay ^ n := by
        calc epsilonMin < epsilonDecay ^ 918 := eps_pow_918
        _ ≤ epsilonDecay ^ n := by
            apply pow_le_pow_of_le_one (by unfold epsilonDecay; norm_num)
              (by unfold epsilonDecay; norm_num) hn
      rw [hmin] at *
      rw [epsStep, if_pos hlt]
      have hmin2 : min (n + 1) 919 = n + 1 := by omega
      rw [hmin2, pow_succ]
    · have hmin : min n 919 = 919 := by omega
      have hmin2 : min (n + 1) 919 = 919 := by omega
      rw [hmin] at *
      rw [hmin2, epsStep, if_neg (by exact not_lt.mpr (le_of_lt eps_pow_919))]

theorem bufPush_foldl (es : List Experience) :
    ∀ acc : List Experience, acc.length ≤ maxReplayBufferSize →
      es.foldl bufPush acc = (acc ++ es).drop ((acc ++ es).length - maxReplayBufferSize) := by
  induction es with
  | nil =>
    intro acc hacc
    simp only [List.foldl_nil, List.append_nil]
    rw [Nat.sub_eq_zero_of_le hacc, List.drop_zero]
  | cons e rest ih =>
    intro acc hacc
    rw [List.foldl_cons]
    by_cases hc : maxReplayBufferSize < (acc ++ [e]).length
    · have hlen : acc.length = maxReplayBufferSize := by
        simp only [List.length_append, List.length_cons, List.length_nil] at hc
        omega
      have hbp : bufPush acc e = (acc ++ [e]).tail := by
        unfold bufPush
        rw [if_pos hc]
      have htl : (acc ++ [e]).tail.length ≤ maxReplayBufferSize := by
        rw [List.length_tail]
        simp only [List.length_append, List.length_cons, List.length_nil]
        omega
      have h1le : 1 ≤ (acc ++ [e]).length := by
        simp only [List.length_append, List.length_cons, List.length_nil]
        omega
      rw [hbp, ih _ htl, ← List.drop_one, ← List.drop_append_of_le_length h1le,
          List.drop_drop]
      have hx : acc ++ [e] ++ rest = acc ++ e :: rest := by simp
      rw [hx]
      have hidx : 1 + (((acc ++ e :: rest).drop 1).length - maxReplayBufferSize) =
          (acc ++ e :: rest).length - maxReplayBufferSize := by
        simp only [List.length_drop, List.length_append, List.length_cons, List.length_nil]
        omega
      rw [hidx]
    · have hbp : bufPush acc e = acc ++ [e] := by
        unfold bufPush
        rw [if_neg hc]
      have hle : (acc ++ [e]).length ≤ maxReplayBufferSize := by
        simp only [List.length_append, List.length_cons, List.length_nil] at hc ⊢
        omega
      rw [hbp, ih (acc ++ [e]) hle]
      have : acc ++ [e] ++ rest = acc ++ e :: rest := by simp
      rw [this]

/-- C2: starting from an empty buffer, after pushing any sequence of
experiences through remember the buffer holds exactly the most recent
maxReplayBufferSize of them in insertion order (the oldest surplus entries
are evicted one per overflowing push), and its size never exceeds the
capacity. -/
theorem remember_capacity (s0 : AgentState) (h0 : s0.replayBuffer = [])
    (es : List Experience) :
    (es.foldl remember s0).replayBuffer = es.drop (es.length - maxReplayBufferSize) ∧
    (es.foldl remember s0).replayBuffer.length ≤ maxReplayBufferSize := by
  have hbuf : ∀ (l : List Experience) (s : AgentState),
      (l.foldl remember s).replayBuffer = l.foldl bufPush s.replayBuffer := by
    intro l
    induction l with
    | nil => intro s; rfl
    | cons e rest ih =>
      intro s
      rw [List.foldl_cons, List.foldl_cons]
      exact ih (remember s e)
  have hfold := bufPush_foldl es ([] : List Experience) (by simp)
  rw [show ([] : List Experience) ++ es = es from by simp] at hfold
  constructor
  · rw [hbuf, h0, hfold]
  · rw [hbuf, h0, hfold, List.length_drop]
    omega

/-- C2 witness: one push into a fresh empty-buffer agent. -/
theorem remember_capacity_witness :
    (([dummyExp].foldl remember (initialAgent [])).replayBuffer =
      [dummyExp].drop ([dummyExp].length - maxReplayBufferSize)) ∧
    ([dummyExp].foldl remember (initialAgent [])).replayBuffer.length ≤ maxReplayBufferSize :=
  remember_capacity (initialAgent []) rfl [dummyExp]

/-- C7: when the replay buffer holds fewer than batchSize experiences, replay
returns before touching anything: the whole agent state — buffer, epsilon,
update counter, replay call counter, both weight sets, the training flag —
is returned unchanged. -/
theorem replay_underfull_noop (fitW : List ℚ) (s : AgentState)
    (h : s.replayBuffer.length < batchSize) : replay fitW s = s := by
  unfold replay
  rw [if_pos h]

/-- C7 witness: replay on a fresh agent with an empty buffer is the identity. -/
theorem replay_underfull_noop_witness :
    replay [] (initialAgent []) = initialAgent [] :=
  replay_underfull_noop [] (initialAgent [])
    (by show ([] : List Experience).length < batchSize; simp [batchSize])

/-- C1 counterexample: after 919 completed training passes (3676 replay calls
on a 32-experience buffer), epsilon equals 0.995 ^ 919, which is strictly
below 0.01: the source multiplies while epsilon is above the floor and then
freezes, so epsilon ends slightly below the floor and never equals the
claimed max(0.01, 1.0 * 0.995 ^ 919) = 0.01. -/
theorem getEpsilon_after_training_not_max :
    getEpsilon ((replay [])^[4 * 919] (initialAgent (List.replicate 32 dummyExp))) ≠
      max epsilonMin ((1 : ℚ) * epsilonDecay ^ 919) := by
  have h := (replayIter_state [] (List.replicate 32 dummyExp)
    (by simp [batchSize]) 919).1
  rw [getEpsilon, h, epsAfter_closed, min_self, one_mul,
      max_eq_left (le_of_lt eps_pow_919)]
  exact ne_of_lt eps_pow_919

/-- C1 (amended): for a fresh agent with a full enough buffer, after N
completed training passes of replay (4N calls through the every-4th-call
throttle) epsilon equals 0.995 ^ min(N, 919) exactly, whatever the buffered
rewards and whatever weights training produces: it is 1.0 * 0.995 ^ N while
that stays above the 0.01 floor, and from the 919th step on it freezes at
0.995 ^ 919, slightly below the floor. -/
theorem getEpsilon_after_training (fitW : List ℚ) (buf : List Experience)
    (hlen : batchSize ≤ buf.length) (N : ℕ) :
    getEpsilon ((replay fitW)^[4 * N] (initialAgent buf)) = epsilonDecay ^ min N 919 := by
  rw [getEpsilon, (replayIter_state fitW buf hlen N).1, epsAfter_closed]

/-- C1 witness: one completed training pass on a 32-experience buffer takes
epsilon from 1.0 to 0.995. -/
theorem getEpsilon_after_training_witness :
    getEpsilon ((replay [])^[4 * 1] (initialAgent (List.replicate 32 dummyExp))) =
      epsilonDecay ^ min 1 919 :=
  getEpsilon_after_training [] (List.replicate 32 dummyExp) (by simp [batchSize]) 1

/-- First lap time a.lapTimes[0] as the ranking comparator reads it; the
orchestrator guarantees finished cars have a recorded lap, which the claim
hypothesis mirrors. -/
def lap0 (c : Car) : ℝ := c.lapTimes.headD 0

/-- The ranking comparator of MultiCarGame.tsx lines 356 to 364: finished
cars first, finished ordered by first lap time ascending, unfinished by
descending track progress. -/
noncomputable def raceCmp (m : MapData) (a b : Car) : ℝ :=
  if a.finished ∧ ¬ b.finished then -1
  else if ¬ a.finished ∧ b.finished then 1
  else if a.finished ∧ b.finished then lap0 a - lap0 b
  else calculateTrackProgress b m - calculateTrackProgress a m

/-- a sorts no later than b under the comparator. -/
noncomputable def rankLE (m : MapData) (a b : Car) : Bool := decide (raceCmp m a b ≤ 0)

/-- The sortedCars array: Array.prototype.sort is stable and, for this total
and transitive comparator, every stable sort returns the same list, so merge
sort by the comparator is that result. -/
noncomputable def sortCars (m : MapData) (cars : List Car) : List Car :=
  cars.mergeSort (rankLE m)

/-- One step of the position-writing forEach (lines 366 to 371): look up the
ranked car by id with findIndex and overwrite that entry's position field. -/
noncomputable def applyRank (acc : List Car) (p : ℕ × Car) : List Car :=
  match acc.findIdx? (fun c => c.id == p.2.id) with
  | some j => List.modify (fun c => { c with position := p.1 + 1 }) j acc
  | none => acc

/-- The whole position update after a tick: fold the enumerated sorted list
over the car array, writing index + 1 into each matched car. -/
noncomputable def assignPositions (m : MapData) (cars : List Car) : List Car :=
  (sortCars m cars).enum.foldl applyRank cars

/-- The ordering the claim describes, as a pairwise relation: a finished car
precedes an unfinished one, finished cars are in ascending order of first lap
time, unfinished cars in descending order of track progress. -/
def rankSpec (m : MapData) (a b : Car) : Prop :=
  (a.finished = true ∧ b.finished = true ∧ lap0 a ≤ lap0 b) ∨
  (a.finished = true ∧ b.finished = false) ∨
  (a.finished = false ∧ b.finished = false ∧
    calculateTrackProgress b m ≤ calculateTrackProgress a m)

theorem rankLE_trans (m : MapData) (a b c : Car)
    (hab : rankLE m a b = true) (hbc : rankLE m b c = true) : rankLE m a c = true := by
  unfold rankLE raceCmp at *
  rw [decide_eq_true_eq] at *
  cases hA : a.finished <;> cases hB : b.finished <;> cases hC : c.finished <;>
    simp [hA, hB, hC] at * <;> linarith

theorem rankLE_total (m : MapData) (a b : Car) :
    (rankLE m a b || rankLE m b a) = true := by
  unfold rankLE raceCmp
  rw [Bool.or_eq_true, decide_eq_true_eq, decide_eq_true_eq]
  cases hA : a.finished <;> cases hB : b.finished <;> simp [hA, hB] <;>
    rcases le_total (lap0 a) (lap0 b) with h | h <;>
    rcases le_total (calculateTrackProgress a m) (calculateTrackProgress b m) with h2 | h2 <;>
    first
      | left; linarith
      | right; linarith

theorem rankLE_imp_rankSpec (m : MapData) (a b : Car)
    (h : rankLE m a b = true) : rankSpec m a b := by
  unfold rankLE raceCmp at h
  rw [decide_eq_true_eq] at h
  unfold rankSpec
  cases hA : a.finished <;> cases hB : b.finished <;> simp [hA, hB] at * <;> linarith

theorem sortCars_perm (m : MapData) (cars : List Car) : (sortCars m cars).Perm cars :=
  List.mergeSort_perm cars (rankLE m)

theorem sortCars_sorted (m : MapData) (cars : List Car) :
    (sortCars m cars).Pairwise (rankSpec m) :=
  (List.sorted_mergeSort (rankLE_trans m) (rankLE_total m) cars).imp
    (fun hab => rankLE_imp_rankSpec m _ _ hab)

theorem enumFrom_find?_id (l : List Car) (x : String) :
    ∀ i : ℕ, (List.enumFrom i l).find? (fun p => p.2.id == x) =
      (l.find? (fun c => c.id == x)).map
        (fun c => (i + l.findIdx (fun c2 => c2.id == x), c)) := by
  induction l with
  | nil => intro i; simp
  | cons a as ih =>
    intro i
    rw [List.enumFrom_cons]
    by_cases h : (a.id == x) = true
    · rw [@List.find?_cons_of_pos _ (fun p => (p.2.id == x)) (i, a) _ (by simpa using h),
          @List.find?_cons_of_pos _ (fun c => (c.id == x)) a _ h, List.findIdx_cons]
      simp [h]
    · rw [@List.find?_cons_of_neg _ (fun p => (p.2.id == x)) (i, a) _ (by simpa using h),
          @List.find?_cons_of_neg _ (fun c => (c.id == x)) a _ h, List.findIdx_cons]
      rw [ih (i + 1)]
      have h' : (a.id == x) = false := by
        cases hb : (a.id == x)
        · rfl
        · exact absurd hb h
      rw [h']
      cases hf : as.find? (fun c => c.id == x)
      · rfl
      · simp only [Option.map_some', cond_false, Option.some.injEq, Prod.mk.injEq]
        constructor
        · omega
        · trivial

theorem applyRank_foldl :
    ∀ (entries : List (ℕ × Car)) (acc : List Car),
      (entries.map (fun p => p.2.id)).Nodup →
      (acc.map Car.id).Nodup →
      entries.foldl applyRank acc = acc.map (fun c =>
        match entries.find? (fun p => p.2.id == c.id) with
        | some p => { c with position := p.1 + 1 }
        | none => c) := by
  intro entries
  induction entries with
  | nil =>
    intro acc _ _
    simp
  | cons q rest ih =>
    intro acc hne hna
    rw [List.map_cons, List.nodup_cons] at hne
    obtain ⟨hqid, hrne⟩ := hne
    rw [List.foldl_cons]
    rcases hfi : acc.findIdx? (fun c => c.id == q.2.id) with _ | j
    · have hnone : ∀ c ∈ acc, (c.id == q.2.id) = false :=
        List.findIdx?_eq_none_iff.mp hfi
      have happ : applyRank acc q = acc := by
        unfold applyRank
        rw [hfi]
      rw [happ, ih acc hrne hna]
      apply List.map_congr_left
      intro c hc
      rw [List.find?_cons_of_neg]
      intro htrue
      have h2 : c.id = q.2.id := (beq_iff_eq.mp htrue).symm
      have h3 := hnone c hc
      rw [beq_eq_false_iff_ne] at h3
      exact h3 h2
    · obtain ⟨hjlt, hjeq⟩ := List.findIdx?_eq_some_iff_findIdx_eq.mp hfi
      subst hjeq
      have happ : applyRank acc q =
          List.modify (fun c => { c with position := q.1 + 1 })
            (acc.findIdx (fun c => c.id == q.2.id)) acc := by
        unfold applyRank
        rw [hfi]
      have hjid : acc[acc.findIdx (fun c => c.id == q.2.id)].id = q.2.id := by
        have h0 := @List.findIdx_getElem _ (fun c => c.id == q.2.id) acc hjlt
        simpa using h0
      have hlenmod : (List.modify (fun c => { c with position := q.1 + 1 })
          (acc.findIdx (fun c => c.id == q.2.id)) acc).length = acc.length :=
        List.length_modify _ _ _
      have hmodids : (List.modify (fun c => { c with position := q.1 + 1 })
            (acc.findIdx (fun c => c.id == q.2.id)) acc).map Car.id
          = acc.map Car.id := by
        apply List.ext_getElem
        · simp [hlenmod]
        · intro n h1 h2
          rw [List.getElem_map, List.getElem_map, List.getElem_modify]
          split
          · rfl
          · rfl
      rw [happ, ih _ hrne (by rw [hmodids]; exact hna)]
      apply List.ext_getElem
      · simp [hlenmod]
      · intro n h1 h2
        have hnacc : n < acc.length := by
          rw [List.length_map, hlenmod] at h1
          exact h1
        rw [List.getElem_map, List.getElem_map, List.getElem_modify]
        by_cases hn : acc.findIdx (fun c => c.id == q.2.id) = n
        · rw [if_pos hn]
          subst hn
          have hfr : rest.find?
              (fun p => (p.2.id == ({ acc[acc.findIdx (fun c => c.id == q.2.id)] with
                position := q.1 + 1 } : Car).id)) = none := by
            rw [List.find?_eq_none]
            intro p hp htrue
            apply hqid
            have hmem : p.2.id ∈ List.map (fun p => p.2.id) rest :=
              List.mem_map_of_mem _ hp
            have h2' : p.2.id = q.2.id := by
              have h3 := beq_iff_eq.mp htrue
              simpa [hjid] using h3
            rwa [h2'] at hmem
          rw [hfr, List.find?_cons_of_pos _ (by rw [beq_iff_eq]; exact hjid.symm)]
        · rw [if_neg hn]
          have hneq : acc[n].id ≠ q.2.id := by
            intro he
            have h1' : n < (acc.map Car.id).length := by simpa using hnacc
            have hj' : acc.findIdx (fun c => c.id == q.2.id) < (acc.map Car.id).length := by
              simpa using hjlt
            have heq2 : (acc.map Car.id)[n] =
                (acc.map Car.id)[acc.findIdx (fun c => c.id == q.2.id)] := by
              rw [List.getElem_map, List.getElem_map, he, hjid]
            exact hn (hna.getElem_inj_iff.mp heq2).symm
          rw [List.find?_cons_of_neg]
          intro htrue
          exact hneq (beq_iff_eq.mp htrue).symm

/-- C8: after a tick the sorted ranking is a permutation of the cars wherein
every finished car precedes every unfinished one, finished cars appear in
ascending order of first lap time, unfinished cars in descending order of
track progress, and each car's position field is set to one plus the index of
its id in that ordering. -/
theorem racePositions_spec (m : MapData) (cars : List Car)
    (hids : (cars.map Car.id).Nodup)
    (hlap : ∀ c ∈ cars, c.finished = true → c.lapTimes ≠ []) :
    (sortCars m cars).Perm cars ∧
    (sortCars m cars).Pairwise (rankSpec m) ∧
    assignPositions m cars = cars.map (fun c =>
      { c with position := (sortCars m cars).findIdx (fun d => d.id == c.id) + 1 }) := by
  refine ⟨sortCars_perm m cars, sortCars_sorted m cars, ?_⟩
  have hperm := sortCars_perm m cars
  have hsids : ((sortCars m cars).map Car.id).Nodup :=
    (List.Perm.nodup_iff (hperm.map Car.id)).mpr hids
  have heids : ((sortCars m cars).enum.map (fun p => p.2.id)).Nodup := by
    have h1 : (sortCars m cars).enum.map (fun p => p.2.id) =
        ((sortCars m cars).enum.map Prod.snd).map Car.id := by
      rw [List.map_map]
      rfl
    rw [h1]
    have h2 : (sortCars m cars).enum.map Prod.snd = sortCars m cars :=
      List.enumFrom_map_snd 0 (sortCars m cars)
    rw [h2]
    exact hsids
  rw [assignPositions, applyRank_foldl _ cars heids hids]
  apply List.map_congr_left
  intro c hc
  have hmem : c ∈ sortCars m cars := hperm.mem_iff.mpr hc
  rcases hfind : (sortCars m cars).find? (fun d => d.id == c.id) with _ | d
  · exfalso
    have h0 := List.find?_eq_none.mp hfind c hmem
    simp at h0
  · have henum : (sortCars m cars).enum.find? (fun p => p.2.id == c.id) =
        some (0 + (sortCars m cars).findIdx (fun c2 => c2.id == c.id), d) := by
      show (List.enumFrom 0 (sortCars m cars)).find? (fun p => p.2.id == c.id) = _
      rw [enumFrom_find?_id (sortCars m cars) c.id 0, hfind]
      rfl
    rw [henum]
    simp

/-- Three concrete racers for the ranking witness: two finished with lap
times 30 and 20, one still on track. -/
def raceCarA : Car := { mkCar 0 0 0 0 with id := "car-0", finished := true, lapTimes := [30] }

def raceCarB : Car := { mkCar 40 20 0 0 with id := "car-1", finished := true, lapTimes := [20] }

def raceCarC : Car := { mkCar 60 40 0 0 with id := "car-2" }

/-- C8 witness: the ranking theorem applied to two finished cars and one
running car on the editor-sized map. -/
theorem racePositions_spec_witness :
    (sortCars bigMap [raceCarA, raceCarB, raceCarC]).Perm [raceCarA, raceCarB, raceCarC] ∧
    (sortCars bigMap [raceCarA, raceCarB, raceCarC]).Pairwise (rankSpec bigMap) ∧
    assignPositions bigMap [raceCarA, raceCarB, raceCarC] =
      [raceCarA, raceCarB, raceCarC].map (fun c =>
        { c with position := ((sortCars bigMap [raceCarA, raceCarB, raceCarC]).findIdx
            (fun d => d.id == c.id) + 1) }) :=
  racePositions_spec bigMap [raceCarA, raceCarB, raceCarC]
    (by decide)
    (by
      intro c hc hf
      rcases List.mem_cons.mp hc with h | hc2
      · subst h
        simp [raceCarA, mkCar]
      · rcases List.mem_cons.mp hc2 with h | hc3
        · subst h
          simp [raceCarB, mkCar]
        · rcases List.mem_cons.mp hc3 with h | hc4
          · subst h
            rw [raceCarC, mkCar] at hf
            simp at hf
          · simp at hc4)

end RaceAI
